import Mathlib

/-!
Verification of the slack-shell interactive session engine against its
natural-language specification. The Go sources are shallowly embedded:
pure functions become Lean functions, stateful methods become explicit
state-passing functions, `time.Time` values become `Int` instants, Go maps
become association lists, and sink invocations become explicit event lists.
-/

namespace SlackShell

/-! ## Association-list helpers (model of Go maps) -/

def assocGet {α : Type} : List (String × α) → String → Option α
  | [], _ => none
  | (a, v) :: rest, k => if a = k then some v else assocGet rest k

def assocSet {α : Type} : List (String × α) → String → α → List (String × α)
  | [], k, v => [(k, v)]
  | (a, w) :: rest, k, v =>
    if a = k then (k, v) :: rest else (a, w) :: assocSet rest k v

/-- ASCII lowering, model of strings.ToLower on the inputs of interest. -/
def goToLower (s : String) : String := String.mk (s.data.map Char.toLower)

/-- Model of strings.EqualFold (simple case folding). -/
def equalFold (a b : String) : Bool := goToLower a = goToLower b

/-! ## Cache layer: internal/cache/usercache.go -/

structure CachedUser where
  Name : String
  DisplayName : String
  RealName : String
  CachedAt : Int
deriving DecidableEq, Repr

structure UserCache where
  data : List (String × CachedUser)
  ttl : Int
  dirty : Bool
deriving DecidableEq, Repr

/-- UserCache.Get: returns the name and found-flag; the TTL is deliberately not
consulted (stale-while-revalidate), mirroring the source comment. -/
def UserCache.Get (c : UserCache) (userID : String) : Option String :=
  match assocGet c.data userID with
  | none => none
  | some entry => some entry.Name

/-- UserCache.IsExpired: compares now − CachedAt against the TTL; a missing
entry counts as expired. -/
def UserCache.IsExpired (c : UserCache) (userID : String) (now : Int) : Bool :=
  match assocGet c.data userID with
  | none => true
  | some entry => c.ttl < now - entry.CachedAt

/-- UserCache.SetFull: stores an entry stamped with the current time and marks
the store dirty. -/
def UserCache.SetFull (c : UserCache) (userID name displayName realName : String)
    (now : Int) : UserCache :=
  { c with
    data := assocSet c.data userID
      { Name := name, DisplayName := displayName, RealName := realName, CachedAt := now }
    dirty := true }

/-- UserCache.Set delegates to SetFull with empty display and real names. -/
def UserCache.Set (c : UserCache) (userID name : String) (now : Int) : UserCache :=
  c.SetFull userID name "" "" now

/-! ## Cache layer: internal/cache/channelcache.go -/

structure CachedChannel where
  ID : String
  Name : String
  IsPrivate : Bool
  IsIM : Bool
  UserID : String
  CachedAt : Int
deriving DecidableEq, Repr

structure ChannelCache where
  channels : List CachedChannel
  dms : List CachedChannel
  ttl : Int
  dirty : Bool
deriving DecidableEq, Repr

/-- ChannelCache.isExpired on a single stamp. -/
def ChannelCache.isExpired (c : ChannelCache) (cachedAt now : Int) : Bool :=
  c.ttl < now - cachedAt

/-- ChannelCache.GetChannels: returns none when the list is empty or when the
first entry's stamp is past the TTL, otherwise the stored list. -/
def ChannelCache.GetChannels (c : ChannelCache) (now : Int) : Option (List CachedChannel) :=
  match c.channels with
  | [] => none
  | ch0 :: _ => if c.isExpired ch0.CachedAt now then none else some c.channels

/-- ChannelCache.SetChannels: stamps every entry with the current time and
marks the store dirty. -/
def ChannelCache.SetChannels (c : ChannelCache) (chans : List CachedChannel)
    (now : Int) : ChannelCache :=
  { c with
    channels := chans.map (fun ch => { ch with CachedAt := now })
    dirty := true }

/-- ChannelCache.IsChannelsExpired: empty or stale first stamp. -/
def ChannelCache.IsChannelsExpired (c : ChannelCache) (now : Int) : Bool :=
  match c.channels with
  | [] => true
  | ch0 :: _ => c.isExpired ch0.CachedAt now

/-! ## Command interpreter: internal/shell/parser.go -/

/-- The double-quote character. -/
def dquote : Char := Char.ofNat 34

/-- The single-quote character. -/
def squote : Char := Char.ofNat 39

inductive CommandType where
  | CmdUnknown | CmdLs | CmdCd | CmdBack | CmdCat | CmdTail | CmdSend | CmdPwd
  | CmdHelp | CmdExit | CmdSource | CmdGrep | CmdBrowse | CmdMkdir | CmdVersion
  | CmdLive
deriving DecidableEq, Repr

open CommandType

structure Command where
  Typ : CommandType
  Args : List String
  Flags : List (String × String)
  RawArgs : String
deriving DecidableEq, Repr

structure Pipeline where
  Commands : List Command
deriving DecidableEq, Repr

/-- Model of unicode.IsSpace on the whitespace characters TrimSpace strips. -/
def isSpaceChar (c : Char) : Bool :=
  c = ' ' ∨ c = '\t' ∨ c = '\n' ∨ c = '\r'

/-- Model of strings.TrimSpace. -/
def trimSpace (s : String) : String :=
  String.mk (((s.data.dropWhile isSpaceChar).reverse.dropWhile isSpaceChar).reverse)

/-- tokenize, inner state machine: the quote state is none outside quotes and
some qc inside a quote opened by qc; cur accumulates the current token. -/
def tokenizeAux : List Char → Option Char → List Char → List String
  | [], _, cur => if cur = [] then [] else [String.mk cur]
  | r :: rest, none, cur =>
    if r = dquote ∨ r = squote then tokenizeAux rest (some r) cur
    else if r = ' ' then
      if cur = [] then tokenizeAux rest none []
      else String.mk cur :: tokenizeAux rest none []
    else tokenizeAux rest none (cur ++ [r])
  | r :: rest, some qc, cur =>
    if r = qc then tokenizeAux rest none cur
    else tokenizeAux rest (some qc) (cur ++ [r])

/-- tokenize: splits the input into tokens, consuming quote characters and
keeping quoted spaces literal. -/
def tokenize (s : String) : List String := tokenizeAux s.data none []

/-- splitByPipe, inner state machine: quote characters are written through and
an unquoted pipe ends the current part. -/
def splitByPipeAux : List Char → Option Char → List Char → List String
  | [], _, cur => if cur = [] then [] else [String.mk cur]
  | r :: rest, none, cur =>
    if r = dquote ∨ r = squote then splitByPipeAux rest (some r) (cur ++ [r])
    else if r = '|' then String.mk cur :: splitByPipeAux rest none []
    else splitByPipeAux rest none (cur ++ [r])
  | r :: rest, some qc, cur =>
    if r = qc then splitByPipeAux rest none (cur ++ [r])
    else splitByPipeAux rest (some qc) (cur ++ [r])

/-- splitByPipe: splits on pipes that are not inside quotes. -/
def splitByPipe (s : String) : List String := splitByPipeAux s.data none []

def parseCommandType (s : String) : CommandType :=
  let l := goToLower s
  if l = "ls" then CmdLs
  else if l = "cd" then CmdCd
  else if l = "cat" then CmdCat
  else if l = "tail" then CmdTail
  else if l = "send" then CmdSend
  else if l = "pwd" then CmdPwd
  else if l = "help" then CmdHelp
  else if l = "exit" ∨ l = "quit" ∨ l = "q" then CmdExit
  else if l = "source" then CmdSource
  else if l = "grep" then CmdGrep
  else if l = "browse" then CmdBrowse
  else if l = "mkdir" then CmdMkdir
  else if l = "version" then CmdVersion
  else if l = "live" then CmdLive
  else CmdUnknown

/-- Model of strings.HasPrefix(s, pre). -/
def goHasPrefix (s pre : String) : Bool := pre.data.isPrefixOf s.data

/-- Model of strings.TrimLeft(part, "-"). -/
def trimLeftDashes (s : String) : String :=
  String.mk (s.data.dropWhile (fun c => c = '-'))

/-- Model of strings.HasPrefix(s, "-"). -/
def startsWithDash (s : String) : Bool :=
  match s.data with
  | [] => false
  | c :: _ => c = '-'

/-- The flag-and-argument loop of ParseCommand: a token starting with a dash is
a flag and consumes the following token as its value unless that token also
starts with a dash, in which case the flag is boolean true. -/
def parseFlagLoop : List String → List String → List (String × String) →
    List String × List (String × String)
  | [], args, flags => (args, flags)
  | [p], args, flags =>
    if startsWithDash p then (args, assocSet flags (trimLeftDashes p) "true")
    else (args ++ [p], flags)
  | p :: next :: rest2, args, flags =>
    if startsWithDash p then
      if startsWithDash next then
        parseFlagLoop (next :: rest2) args (assocSet flags (trimLeftDashes p) "true")
      else
        parseFlagLoop rest2 args (assocSet flags (trimLeftDashes p) next)
    else
      parseFlagLoop (next :: rest2) (args ++ [p]) flags

/-- Model of strings.Index: byte index of the first occurrence of the pattern,
on the rune-list embedding (index counted in runes). -/
def indexOfSubAux : List Char → List Char → Nat → Option Nat
  | l, pat, i =>
    if pat.isPrefixOf l then some i
    else match l with
      | [] => none
      | _ :: rest => indexOfSubAux rest pat (i + 1)

def stringIndex (s pat : String) : Option Nat := indexOfSubAux s.data pat.data 0

/-- ParseCommand: trims the input, special-cases "..", tokenizes, selects the
verb from the first token, parses flags and args, and for the send verb
captures everything after the first occurrence of the verb token in the
trimmed input as RawArgs. -/
def ParseCommand (input0 : String) : Command :=
  let input := trimSpace input0
  if input = "" then { Typ := CmdUnknown, Args := [], Flags := [], RawArgs := "" }
  else if input = ".." then { Typ := CmdBack, Args := [], Flags := [], RawArgs := "" }
  else
    match tokenize input with
    | [] => { Typ := CmdUnknown, Args := [], Flags := [], RawArgs := "" }
    | p0 :: prest =>
      let t := parseCommandType p0
      let (args, flags) := parseFlagLoop prest [] []
      let raw :=
        if t = CmdSend ∧ prest ≠ [] then
          match stringIndex input p0 with
          | some idx => trimSpace (String.mk (input.data.drop (idx + p0.length)))
          | none => ""
        else ""
      { Typ := t, Args := args, Flags := flags, RawArgs := raw }

/-- ParsePipeline: splits on unquoted pipes and parses each trimmed part. -/
def ParsePipeline (input0 : String) : Pipeline :=
  let input := trimSpace input0
  if input = "" then { Commands := [{ Typ := CmdUnknown, Args := [], Flags := [], RawArgs := "" }] }
  else { Commands := (splitByPipe input).map (fun part => ParseCommand (trimSpace part)) }

/-- Command.GetFlagBool: a flag is set when present in the map. -/
def Command.GetFlagBool (c : Command) (name : String) : Bool :=
  (assocGet c.Flags name).isSome

/-! ## Session executor: executor.go (Execute, ExecutePipeline, executeGrep,
executeSend). Execute dispatches to network-backed operations, so the pipeline
is parameterised by the result of executing its first command. -/

inductive ExecError where
  | external (msg : String)
  | cannotPipeTo (verb : String)
deriving DecidableEq, Repr

structure ExecuteResult where
  Output : String
  ExitFlag : Bool
  Error : Option ExecError
deriving DecidableEq, Repr

/-- Model of strings.Contains via prefix search. -/
def containsSubAux : List Char → List Char → Bool
  | [], pat => pat.isEmpty
  | a :: rest, pat => pat.isPrefixOf (a :: rest) || containsSubAux rest pat

def strContains (s sub : String) : Bool := containsSubAux s.data sub.data

/-- Model of strings.Split(input, newline). -/
def splitLinesAux : List Char → List Char → List String
  | [], cur => [String.mk cur]
  | c :: rest, cur =>
    if c = '\n' then String.mk cur :: splitLinesAux rest []
    else splitLinesAux rest (cur ++ [c])

def splitLines (s : String) : List String := splitLinesAux s.data []

/-- Model of strings.Join(lines, newline). -/
def joinLines : List String → String
  | [] => ""
  | [x] => x
  | x :: y :: rest => x ++ "\n" ++ joinLines (y :: rest)

/-- executeGrep: filters input lines by the first argument; the source reads
`if caseInsensitive || true` (always case-insensitive for now), which is kept
verbatim; zero matches yield the sentinel text. -/
def executeGrep (cmd : Command) (input : String) : String :=
  match cmd.Args with
  | [] => input
  | arg0 :: _ =>
    let pattern := goToLower arg0
    let caseInsensitive := cmd.GetFlagBool "i"
    let lines := splitLines input
    let matched := lines.filter (fun line =>
      let searchLine := if caseInsensitive || true then goToLower line else line
      let searchPattern := if caseInsensitive || true then goToLower pattern else pattern
      strContains searchLine searchPattern)
    if matched = [] then "No matches found." else joinLines matched

def getCommandName : CommandType → String
  | CmdLs => "ls"
  | CmdCd => "cd"
  | CmdBack => ".."
  | CmdCat => "cat"
  | CmdTail => "tail"
  | CmdSend => "send"
  | CmdPwd => "pwd"
  | CmdHelp => "help"
  | CmdExit => "exit"
  | CmdSource => "source"
  | CmdGrep => "grep"
  | _ => "unknown"

/-- The stage loop of ExecutePipeline: each later stage must be a grep filter;
any other verb aborts with a composition error and empty output. -/
def pipeLoop : List Command → String → ExecuteResult
  | [], cur => { Output := cur, ExitFlag := false, Error := none }
  | cmd :: rest, cur =>
    match cmd.Typ with
    | CmdGrep => pipeLoop rest (executeGrep cmd cur)
    | t => { Output := "", ExitFlag := false,
             Error := some (ExecError.cannotPipeTo (getCommandName t)) }

/-- ExecutePipeline: runs the first command (given as exec1, since Execute
performs remote calls), returns it unchanged on error, exit, or a singleton
pipeline, and otherwise threads its output through the stage loop. -/
def ExecutePipeline (exec1 : Command → ExecuteResult) (p : Pipeline) : ExecuteResult :=
  match p.Commands with
  | [] => { Output := "", ExitFlag := false, Error := none }
  | first :: rest =>
    let result := exec1 first
    if result.Error ≠ none ∨ result.ExitFlag ∨ rest = [] then result
    else pipeLoop rest result.Output

/-- The message text executeSend posts: RawArgs, falling back to the joined
Args when RawArgs is empty. -/
def sendMessageText (cmd : Command) : String :=
  if cmd.RawArgs = "" ∧ cmd.Args ≠ [] then String.intercalate " " cmd.Args
  else cmd.RawArgs

/-! ## Notification coordinator: manager.go -/

structure NotifMessage where
  ChannelID : String
  ChannelName : String
  UserName : String
  Text : String
  IsMention : Bool
  IsIM : Bool
deriving DecidableEq, Repr

structure NotifConfig where
  Enabled : Bool
  DND : Bool
  MuteChannels : List String
  BellEnabled : Bool
  BellMentionsOnly : Bool
  DesktopEnabled : Bool
  DesktopMentionsOnly : Bool
  TitleEnabled : Bool
  VisualEnabled : Bool
deriving DecidableEq, Repr

structure Manager where
  config : NotifConfig
  unreadCount : List (String × Nat)
deriving DecidableEq, Repr

/-- A sink invocation performed by HandleMessage. -/
inductive SinkCall where
  | bell (msg : NotifMessage)
  | desktop (msg : NotifMessage)
  | titleUpdate (totalUnread : Nat)
  | visual (msg : NotifMessage)
deriving DecidableEq, Repr

/-- Manager.isChannelMuted: matched by identity or case-insensitive name. -/
def Manager.isChannelMuted (m : Manager) (channelID channelName : String) : Bool :=
  m.config.MuteChannels.any (fun ch => ch = channelID || equalFold ch channelName)

/-- The unread-counter increment m.unreadCount[id]++ on the Go map. -/
def incrCount : List (String × Nat) → String → List (String × Nat)
  | [], k => [(k, 1)]
  | (a, n) :: rest, k =>
    if a = k then (a, n + 1) :: rest else (a, n) :: incrCount rest k

def totalUnread (l : List (String × Nat)) : Nat := (l.map Prod.snd).sum

/-- Manager.GetUnreadForChannel: the Go map read defaults to 0. -/
def Manager.GetUnreadForChannel (m : Manager) (channelID : String) : Nat :=
  match assocGet m.unreadCount channelID with
  | none => 0
  | some n => n

/-- Manager.HandleMessage: the layered filter (disabled, DND, muted, currently
viewed outside tail mode), then the unread increment and per-sink eligibility;
returns the new state and the sink invocations in source order. -/
def Manager.HandleMessage (m : Manager) (msg : NotifMessage)
    (currentChannelID : String) (inTailMode : Bool) : Manager × List SinkCall :=
  if !m.config.Enabled then (m, [])
  else if m.config.DND then (m, [])
  else if m.isChannelMuted msg.ChannelID msg.ChannelName then (m, [])
  else if msg.ChannelID = currentChannelID ∧ !inTailMode then (m, [])
  else
    let unread := incrCount m.unreadCount msg.ChannelID
    let total := totalUnread unread
    let shouldBell := m.config.BellEnabled && (!m.config.BellMentionsOnly || msg.IsMention)
    let shouldDesktop := m.config.DesktopEnabled && (!m.config.DesktopMentionsOnly || msg.IsMention)
    let calls :=
      (if shouldBell then [SinkCall.bell msg] else [])
      ++ (if shouldDesktop then [SinkCall.desktop msg] else [])
      ++ (if m.config.TitleEnabled then [SinkCall.titleUpdate total] else [])
      ++ (if m.config.VisualEnabled then [SinkCall.visual msg] else [])
    ({ m with unreadCount := unread }, calls)

/-! ## Session state machine: live.go (LiveModel) -/

structure Message where
  Timestamp : Nat
  User : String
  Text : String
deriving DecidableEq, Repr

structure NotificationItem where
  ChannelID : String
  ChannelName : String
  IsIM : Bool
  Count : Nat
  LastMessage : String
  LastUser : String
deriving DecidableEq, Repr

/-- The LiveModel fields the pagination, peek and mention claims touch; the
rendering-only fields (width, height, textarea internals) are omitted. -/
structure LiveModel where
  channelID : String
  channelName : String
  messages : List Message
  selectedIndex : Nat
  scrollOffset : Nat
  loading : Bool
  loadingErr : Option String
  loadingOlder : Bool
  hasMoreMessages : Bool
  notifications : List NotificationItem
  showNotifyPanel : Bool
  peekMode : Bool
  peekChannelID : String
  peekChannelName : String
  peekIsIM : Bool
  peekMessages : List Message
  peekSelectedIndex : Nat
  peekScrollOffset : Nat
  peekThreadVisible : Bool
  peekThreadMessages : List Message
  peekLoading : Bool
  peekLoadingErr : Option String
  originalChannelID : String
  originalChannelName : String
  originalMessages : List Message
  originalScrollOffset : Nat
  originalSelectedIndex : Nat
deriving DecidableEq, Repr

structure LiveOlderMessagesLoadedMsg where
  Messages : List Message
  HasMore : Bool
  Err : Option String
deriving DecidableEq, Repr

/-- The LiveOlderMessagesLoadedMsg branch of LiveModel.Update: clear the
loading flag; on error record it; on a non-empty page prepend it and shift the
selection and scroll offsets by its length; on an empty page record that no
more pages exist. -/
def applyOlderLoaded (m : LiveModel) (msg : LiveOlderMessagesLoadedMsg) : LiveModel :=
  let m1 := { m with loadingOlder := false }
  match msg.Err with
  | some e => { m1 with loadingErr := some e }
  | none =>
    match msg.Messages with
    | [] => { m1 with hasMoreMessages := false }
    | _ :: _ =>
      { m1 with
        messages := msg.Messages ++ m1.messages
        hasMoreMessages := msg.HasMore
        selectedIndex := m1.selectedIndex + msg.Messages.length
        scrollOffset := m1.scrollOffset + msg.Messages.length }

/-- LiveModel.ClearNotification: removes the first entry for the channel. -/
def clearNotification : List NotificationItem → String → List NotificationItem
  | [], _ => []
  | n :: rest, cid =>
    if n.ChannelID = cid then rest else n :: clearNotification rest cid

/-- LiveModel.enterPeekMode, state part: snapshot the current view into the
original* slot, arm the peek fields, hide the notification panel and clear the
target channel's notification (the returned load command is a remote call and
is not modelled). -/
def enterPeekMode (m : LiveModel) (channelID channelName : String) (isIM : Bool) : LiveModel :=
  { m with
    originalChannelID := m.channelID
    originalChannelName := m.channelName
    originalMessages := m.messages
    originalScrollOffset := m.scrollOffset
    originalSelectedIndex := m.selectedIndex
    peekMode := true
    peekChannelID := channelID
    peekChannelName := channelName
    peekIsIM := isIM
    peekLoading := true
    peekLoadingErr := none
    peekMessages := []
    peekSelectedIndex := 0
    peekScrollOffset := 0
    peekThreadVisible := false
    showNotifyPanel := false
    notifications := clearNotification m.notifications channelID }

/-- LiveModel.exitPeekMode: clear the peek fields and restore the snapshot. -/
def exitPeekMode (m : LiveModel) : LiveModel :=
  { m with
    peekMode := false
    peekChannelID := ""
    peekChannelName := ""
    peekMessages := []
    peekThreadVisible := false
    peekThreadMessages := []
    peekLoading := false
    peekLoadingErr := none
    messages := m.originalMessages
    scrollOffset := m.originalScrollOffset
    selectedIndex := m.originalSelectedIndex
    originalMessages := [] }

/-! ## Mention completion: updateMentionCompletion / completeMention -/

structure MentionCandidate where
  UserID : String
  UserName : String
deriving DecidableEq, Repr

structure MentionState where
  active : Bool
  candidates : List MentionCandidate
  index : Nat
  query : String
deriving DecidableEq, Repr

/-- The backward scan for the nearest at-sign, on the reversed rune list:
returns the distance from the end, stopping at whitespace. -/
def revMentionScan : List Char → Option Nat
  | [] => none
  | r :: rest =>
    if r = '@' then some 0
    else if r = ' ' ∨ r = '\n' ∨ r = '\t' then none
    else (revMentionScan rest).map (· + 1)

/-- The index of the at-sign that starts the pending mention, if any. -/
def findMentionStart (runes : List Char) : Option Nat :=
  (revMentionScan runes.reverse).map (fun j => runes.length - 1 - j)

/-- The candidate-building loop: members are scanned in membership-list order,
unresolved IDs are skipped, names are filtered by lowercase prefix, and the
loop stops once ten candidates are collected. -/
def buildCandidatesAux (cache : List (String × String)) (query : String) :
    List String → List MentionCandidate → List MentionCandidate
  | [], acc => acc
  | uid :: rest, acc =>
    match assocGet cache uid with
    | none => buildCandidatesAux cache query rest acc
    | some name =>
      let acc2 :=
        if query = "" || goHasPrefix (goToLower name) query then acc ++ [⟨uid, name⟩]
        else acc
      if 10 ≤ acc2.length then acc2 else buildCandidatesAux cache query rest acc2

/-- updateMentionCompletion: locate the pending at-prefix, lowercase it, build
the candidate list from the channel members, and activate when non-empty; when
no at-prefix is pending the completion is deactivated. -/
def updateMentionCompletion (members : List String) (cache : List (String × String))
    (text : String) (st : MentionState) : MentionState :=
  match findMentionStart text.data with
  | none => { st with active := false, candidates := [] }
  | some ms =>
    let query := goToLower (String.mk (text.data.drop (ms + 1)))
    let cands := buildCandidatesAux cache query members []
    let active := cands ≠ []
    let idx := if active ∧ cands.length ≤ st.index then 0 else st.index
    { active := active, candidates := cands, index := idx, query := query }

/-- completeMention: replace the at-prefix span with the selected candidate's
full name and a trailing space (the out-of-range index read cannot occur under
the model invariant, and is modelled by a default). -/
def completeMention (st : MentionState) (text : String) : String :=
  if !st.active || st.candidates.isEmpty then text
  else
    let candidate := st.candidates.getD st.index ⟨"", ""⟩
    match findMentionStart text.data with
    | none => text
    | some ms => String.mk (text.data.take ms) ++ "@" ++ candidate.UserName ++ " "

/-- The per-member selection step of the updateMentionCompletion loop, written
as an Option-valued pick: skip unresolved IDs and names whose lowercase form
does not start with the (lowercase) query. -/
def mentionPick (cache : List (String × String)) (query : String) (uid : String) :
    Option MentionCandidate :=
  match assocGet cache uid with
  | none => none
  | some name =>
    if query.data.isPrefixOf (goToLower name).data then some ⟨uid, name⟩ else none

/-- A message list in ascending timestamp order (the server delivers pages
ordered by the timestamp primary key). -/
def AscendingMsgs (l : List Message) : Prop :=
  l.Pairwise (fun a b => a.Timestamp ≤ b.Timestamp)

instance AscendingMsgs.decidable (l : List Message) : Decidable (AscendingMsgs l) := by
  unfold AscendingMsgs
  exact List.instDecidablePairwise l

/-! ## Concrete fixtures used by witnesses and counterexamples -/

def msgT (t : Nat) : Message := { Timestamp := t, User := "u", Text := "m" }

def liveFix : LiveModel :=
  { channelID := "C1"
    channelName := "general"
    messages := [msgT 10, msgT 20]
    selectedIndex := 1
    scrollOffset := 1
    loading := false
    loadingErr := none
    loadingOlder := true
    hasMoreMessages := true
    notifications := []
    showNotifyPanel := false
    peekMode := false
    peekChannelID := ""
    peekChannelName := ""
    peekIsIM := false
    peekMessages := []
    peekSelectedIndex := 0
    peekScrollOffset := 0
    peekThreadVisible := false
    peekThreadMessages := []
    peekLoading := false
    peekLoadingErr := none
    originalChannelID := ""
    originalChannelName := ""
    originalMessages := []
    originalScrollOffset := 0
    originalSelectedIndex := 0 }

def olderEvFix : LiveOlderMessagesLoadedMsg :=
  { Messages := [msgT 1, msgT 2], HasMore := true, Err := none }

def lsOutputFix : String := "general\ndev-backend\ndev-frontend\nrandom"

def exec1Fix : Command → ExecuteResult :=
  fun _ => { Output := lsOutputFix, ExitFlag := false, Error := none }

def exec1ErrFix : Command → ExecuteResult :=
  fun _ => { Output := "", ExitFlag := false, Error := some (ExecError.external "boom") }

def grepDevCmd : Command := { Typ := CmdGrep, Args := ["dev"], Flags := [], RawArgs := "" }

def lsCmd : Command := { Typ := CmdLs, Args := [], Flags := [], RawArgs := "" }

def catCmd : Command := { Typ := CmdCat, Args := [], Flags := [], RawArgs := "" }

/-- The quoted message body, with its surrounding double quotes. -/
def quotedHello : String := String.mk (dquote :: "hello world".data ++ [dquote])

/-- The shell input: send followed by the double-quoted hello world. -/
def sendInputFix : String := "send " ++ quotedHello

def membersFix : List String := ["U1", "U2", "U3"]

def cacheFix : List (String × String) := [("U1", "alice"), ("U2", "albert"), ("U3", "bob")]

def st0Fix : MentionState := { active := false, candidates := [], index := 0, query := "" }

def chGeneral : CachedChannel :=
  { ID := "C1", Name := "general", IsPrivate := false, IsIM := false,
    UserID := "", CachedAt := 0 }

def emptyChannelCacheTTL1 : ChannelCache :=
  { channels := [], dms := [], ttl := 1, dirty := false }

def emptyChannelCacheTTL5 : ChannelCache :=
  { channels := [], dms := [], ttl := 5, dirty := false }

def emptyUserCacheTTL5 : UserCache :=
  { data := [], ttl := 5, dirty := false }

def allOnNotifConfig : NotifConfig :=
  { Enabled := true, DND := false, MuteChannels := [],
    BellEnabled := true, BellMentionsOnly := false,
    DesktopEnabled := true, DesktopMentionsOnly := false,
    TitleEnabled := true, VisualEnabled := true }

def mgrDNDFix : Manager :=
  { config := { allOnNotifConfig with DND := true }, unreadCount := [] }

def mgrMutedFix : Manager :=
  { config := { allOnNotifConfig with MuteChannels := ["GENERAL"] }, unreadCount := [] }

def msgGeneralFix : NotifMessage :=
  { ChannelID := "C7", ChannelName := "General", UserName := "alice",
    Text := "hi", IsMention := false, IsIM := false }

/-! ## Helper lemmas -/

theorem assocGet_assocSet {α : Type} (l : List (String × α)) (k : String) (v : α) :
    assocGet (assocSet l k v) k = some v := by
  induction l with
  | nil => simp [assocSet, assocGet]
  | cons hd tl ih =>
    obtain ⟨a, w⟩ := hd
    by_cases h : a = k
    · simp [assocSet, assocGet, h]
    · simp [assocSet, assocGet, h, ih]

theorem charOfNat_toNat (n : Nat) (h : n.isValidChar) : (Char.ofNat n).toNat = n := by
  simp [Char.ofNat, h, Char.toNat, Char.ofNatAux, UInt32.toNat, BitVec.toNat_ofNatLt]

theorem char_toLower_idem (c : Char) : c.toLower.toLower = c.toLower := by
  unfold Char.toLower
  by_cases h : c.toNat ≥ 65 ∧ c.toNat ≤ 90
  · rw [if_pos h]
    have hv : (c.toNat + 32).isValidChar := by
      unfold Nat.isValidChar
      left
      omega
    have ht : (Char.ofNat (c.toNat + 32)).toNat = c.toNat + 32 := charOfNat_toNat _ hv
    have hcond : ¬((Char.ofNat (c.toNat + 32)).toNat ≥ 65 ∧ (Char.ofNat (c.toNat + 32)).toNat ≤ 90) := by
      rw [ht]
      omega
    rw [if_neg hcond]
  · rw [if_neg h, if_neg h]

theorem goToLower_idem (s : String) : goToLower (goToLower s) = goToLower s := by
  simp only [goToLower, List.map_map]
  exact congrArg String.mk (List.map_congr_left (fun c _ => char_toLower_idem c))

/-! ## Claim theorems -/

/-- C1: counterexample — the claim fails on the conversation store: a channel
list stored at time 0 with TTL 1 is withheld by GetChannels at time 10
(nil is returned, found = false), although it is still the last stored value
and IsChannelsExpired is available as a separate signal. -/
theorem C1_counterexample :
    (emptyChannelCacheTTL1.SetChannels [chGeneral] 0).GetChannels 10 = none
  ∧ (emptyChannelCacheTTL1.SetChannels [chGeneral] 0).channels ≠ [] := by
  constructor
  · rfl
  · decide

/-- C1: amended — the user store is stale-while-revalidate: Get returns the
last stored value no matter how much time has passed, and IsExpired is the
advisory staleness signal; the conversation store however withholds on read:
once now − fetchedAt exceeds the TTL, GetChannels returns none even though the
value is still stored. -/
theorem C1_amended (c : UserCache) (uid name : String) (tset tnow : Int)
    (cc : ChannelCache) (chans : List CachedChannel)
    (hne : chans ≠ []) (hexp : cc.ttl < tnow - tset) :
    (c.Set uid name tset).Get uid = some name
  ∧ ((c.Set uid name tset).IsExpired uid tnow = decide (c.ttl < tnow - tset))
  ∧ (cc.SetChannels chans tset).GetChannels tnow = none := by
  refine ⟨?_, ?_, ?_⟩
  · simp [UserCache.Set, UserCache.SetFull, UserCache.Get, assocGet_assocSet]
  · simp [UserCache.Set, UserCache.SetFull, UserCache.IsExpired, assocGet_assocSet]
  · obtain ⟨ch0, rest, rfl⟩ : ∃ ch0 rest, chans = ch0 :: rest := by
      cases chans with
      | nil => exact absurd rfl hne
      | cons a b => exact ⟨a, b, rfl⟩
    simp [ChannelCache.SetChannels, ChannelCache.GetChannels, ChannelCache.isExpired, hexp]

/-- C1: witness for the amended theorem at concrete inputs. -/
theorem C1_witness :
    ([chGeneral] ≠ ([] : List CachedChannel))
  ∧ ((5 : Int) < 100 - 0)
  ∧ (emptyUserCacheTTL5.Set "U1" "alice" 0).Get "U1" = some "alice"
    ∧ (emptyUserCacheTTL5.Set "U1" "alice" 0).IsExpired "U1" 100
        = decide ((5 : Int) < 100 - 0)
    ∧ (emptyChannelCacheTTL5.SetChannels [chGeneral] 0).GetChannels 100 = none := by
  refine ⟨by decide, by decide, ?_⟩
  exact C1_amended emptyUserCacheTTL5 "U1" "alice" 0 100 emptyChannelCacheTTL5
    [chGeneral] (by decide) (by decide)

/-- C3: entering peek mode on any conversation and exiting without intervening
interaction restores the message window, scroll offset, selection index (and
the current channel identity, which peek never overwrites) exactly. -/
theorem C3_peek_roundtrip (m : LiveModel) (cid cname : String) (isIM : Bool) :
    (exitPeekMode (enterPeekMode m cid cname isIM)).messages = m.messages
  ∧ (exitPeekMode (enterPeekMode m cid cname isIM)).scrollOffset = m.scrollOffset
  ∧ (exitPeekMode (enterPeekMode m cid cname isIM)).selectedIndex = m.selectedIndex
  ∧ (exitPeekMode (enterPeekMode m cid cname isIM)).channelID = m.channelID
  ∧ (exitPeekMode (enterPeekMode m cid cname isIM)).channelName = m.channelName
  ∧ (exitPeekMode (enterPeekMode m cid cname isIM)).peekMode = false := by
  refine ⟨rfl, rfl, rfl, rfl, rfl, rfl⟩

/-- C10: the grep stage ignores its flag map entirely (the source reads
`caseInsensitive || true`), so two grep commands with the same arguments and
different flags — in particular with and without -i — filter identically. -/
theorem C10_grep_flag_noop (c1 c2 : Command) (input : String) (h : c1.Args = c2.Args) :
    executeGrep c1 input = executeGrep c2 input := by
  unfold executeGrep
  rw [h]
  cases c2.Args with
  | nil => rfl
  | cons a rest => simp [Bool.or_true]

/-- C10: witness — grep with and without the -i flag produce the same output. -/
theorem C10_witness :
    executeGrep { Typ := CmdGrep, Args := ["dev"], Flags := [("i", "true")], RawArgs := "" }
        "general\ndev-backend\nDEV-frontend\nrandom"
      = executeGrep { Typ := CmdGrep, Args := ["dev"], Flags := [], RawArgs := "" }
        "general\ndev-backend\nDEV-frontend\nrandom" :=
  C10_grep_flag_noop
    { Typ := CmdGrep, Args := ["dev"], Flags := [("i", "true")], RawArgs := "" }
    { Typ := CmdGrep, Args := ["dev"], Flags := [], RawArgs := "" }
    "general\ndev-backend\nDEV-frontend\nrandom" (by decide)

/-- C4: with DND enabled HandleMessage drops the event — the manager state
(and hence every unread counter) is unchanged and no sink is invoked; the same
holds when the message's conversation matches a mute-list entry by exact
identity or by case-insensitive name, even with DND disabled. -/
theorem C4_suppression (m : Manager) (msg : NotifMessage) (cur : String) (tailMode : Bool) :
    (m.config.DND = true → m.HandleMessage msg cur tailMode = (m, []))
  ∧ ((∃ ch ∈ m.config.MuteChannels,
        ch = msg.ChannelID ∨ goToLower ch = goToLower msg.ChannelName) →
      m.HandleMessage msg cur tailMode = (m, [])) := by
  constructor
  · intro hdnd
    by_cases hE : m.config.Enabled
    · simp [Manager.HandleMessage, hE, hdnd]
    · simp [Manager.HandleMessage, hE]
  · intro hmute
    have hm : m.isChannelMuted msg.ChannelID msg.ChannelName = true := by
      rw [Manager.isChannelMuted, List.any_eq_true]
      obtain ⟨ch, hch, hcase⟩ := hmute
      refine ⟨ch, hch, ?_⟩
      rcases hcase with h1 | h2
      · simp [h1]
      · simp [equalFold, h2]
    by_cases hE : m.config.Enabled
    · by_cases hdnd : m.config.DND
      · simp [Manager.HandleMessage, hE, hdnd]
      · simp [Manager.HandleMessage, hE, hdnd, hm]
    · simp [Manager.HandleMessage, hE]

/-- C2: applying an error-free older-page event carrying a non-empty list of N
older messages prepends them, shifts both the selection index and the scroll
offset by exactly N, keeps the previously selected message selected, and
preserves ascending timestamp order. -/
theorem C2_pagination (m : LiveModel) (ev : LiveOlderMessagesLoadedMsg)
    (herr : ev.Err = none) (hne : ev.Messages ≠ [])
    (hm : AscendingMsgs m.messages) (hp : AscendingMsgs ev.Messages)
    (holder : ∀ p ∈ ev.Messages, ∀ q ∈ m.messages, p.Timestamp ≤ q.Timestamp) :
    (applyOlderLoaded m ev).messages = ev.Messages ++ m.messages
  ∧ (applyOlderLoaded m ev).selectedIndex = m.selectedIndex + ev.Messages.length
  ∧ (applyOlderLoaded m ev).scrollOffset = m.scrollOffset + ev.Messages.length
  ∧ (applyOlderLoaded m ev).messages[(applyOlderLoaded m ev).selectedIndex]?
      = m.messages[m.selectedIndex]?
  ∧ AscendingMsgs (applyOlderLoaded m ev).messages := by
  obtain ⟨p0, prest, hev⟩ : ∃ a b, ev.Messages = a :: b := by
    cases hx : ev.Messages with
    | nil => exact absurd hx hne
    | cons a b => exact ⟨a, b, rfl⟩
  have hmsgs : (applyOlderLoaded m ev).messages = ev.Messages ++ m.messages := by
    simp [applyOlderLoaded, herr, hev]
  have hsel : (applyOlderLoaded m ev).selectedIndex
      = m.selectedIndex + ev.Messages.length := by
    simp [applyOlderLoaded, herr, hev]
  refine ⟨hmsgs, hsel, ?_, ?_, ?_⟩
  · simp [applyOlderLoaded, herr, hev]
  · rw [hmsgs, hsel]
    rw [List.getElem?_append_right (by omega)]
    congr 1
    omega
  · rw [hmsgs]
    unfold AscendingMsgs
    rw [List.pairwise_append]
    exact ⟨hp, hm, holder⟩

/-- C2: witness — a two-message older page prepended to a two-message window
with the newest message selected. -/
theorem C2_witness :
    (olderEvFix.Err = none ∧ olderEvFix.Messages ≠ []
      ∧ AscendingMsgs liveFix.messages ∧ AscendingMsgs olderEvFix.Messages
      ∧ ∀ p ∈ olderEvFix.Messages, ∀ q ∈ liveFix.messages, p.Timestamp ≤ q.Timestamp)
  ∧ ((applyOlderLoaded liveFix olderEvFix).messages = olderEvFix.Messages ++ liveFix.messages
      ∧ (applyOlderLoaded liveFix olderEvFix).selectedIndex
          = liveFix.selectedIndex + olderEvFix.Messages.length
      ∧ (applyOlderLoaded liveFix olderEvFix).scrollOffset
          = liveFix.scrollOffset + olderEvFix.Messages.length
      ∧ (applyOlderLoaded liveFix olderEvFix).messages[
          (applyOlderLoaded liveFix olderEvFix).selectedIndex]?
          = liveFix.messages[liveFix.selectedIndex]?
      ∧ AscendingMsgs (applyOlderLoaded liveFix olderEvFix).messages) := by
  refine ⟨⟨by decide, by decide, by decide, by decide, by decide⟩, ?_⟩
  exact C2_pagination liveFix olderEvFix (by decide) (by decide) (by decide) (by decide)
    (by decide)

/-- C4: witness — a DND manager and a muted channel (matched case
insensitively by name) both drop a concrete incoming message. -/
theorem C4_witness :
    mgrDNDFix.config.DND = true
  ∧ (∃ ch ∈ mgrMutedFix.config.MuteChannels,
        ch = msgGeneralFix.ChannelID ∨ goToLower ch = goToLower msgGeneralFix.ChannelName)
  ∧ mgrDNDFix.HandleMessage msgGeneralFix "other" false = (mgrDNDFix, [])
  ∧ mgrMutedFix.HandleMessage msgGeneralFix "other" false = (mgrMutedFix, []) := by
  refine ⟨rfl, ⟨"GENERAL", by decide, Or.inr (by decide)⟩, ?_, ?_⟩
  · exact (C4_suppression mgrDNDFix msgGeneralFix "other" false).1 rfl
  · exact (C4_suppression mgrMutedFix msgGeneralFix "other" false).2
      ⟨"GENERAL", by decide, Or.inr (by decide)⟩

theorem pipeLoop_all_grep (l : List Command) (cur : String)
    (h : ∀ c ∈ l, c.Typ = CmdGrep) :
    pipeLoop l cur
      = { Output := l.foldl (fun acc c => executeGrep c acc) cur,
          ExitFlag := false, Error := none } := by
  induction l generalizing cur with
  | nil => simp [pipeLoop]
  | cons c rest ih =>
    have hc : c.Typ = CmdGrep := h c (List.mem_cons_self c rest)
    simp only [pipeLoop, hc, List.foldl_cons]
    exact ih (executeGrep c cur) (fun d hd => h d (List.mem_cons_of_mem c hd))

theorem pipeLoop_bad (pre : List Command) (c : Command) (post : List Command) (cur : String)
    (hpre : ∀ d ∈ pre, d.Typ = CmdGrep) (hc : c.Typ ≠ CmdGrep) :
    pipeLoop (pre ++ c :: post) cur
      = { Output := "", ExitFlag := false,
          Error := some (ExecError.cannotPipeTo (getCommandName c.Typ)) } := by
  induction pre generalizing cur with
  | nil =>
    rw [List.nil_append]
    cases htyp : c.Typ <;> first
      | exact absurd htyp hc
      | simp [pipeLoop, htyp]
  | cons d rest ih =>
    have hd : d.Typ = CmdGrep := hpre d (List.mem_cons_self d rest)
    simp only [List.cons_append, pipeLoop, hd]
    exact ih (executeGrep d cur) (fun e he => hpre e (List.mem_cons_of_mem d he))

/-- C6: ExecutePipeline returns the first command's result unchanged when that
result carries an error; when it is error-free and not an exit, an all-filter
tail threads the output through each grep stage in order with no error; and a
non-filter verb at any later stage yields the pipeline-composition error with
empty output, independently of the stages after the offending one (they never
run). -/
theorem C6_pipeline (exec1 : Command → ExecuteResult) (first : Command)
    (rest : List Command) :
    ((exec1 first).Error ≠ none →
      ExecutePipeline exec1 { Commands := first :: rest } = exec1 first)
  ∧ ((exec1 first).Error = none → (exec1 first).ExitFlag = false →
      (∀ c ∈ rest, c.Typ = CmdGrep) →
      (ExecutePipeline exec1 { Commands := first :: rest }).Output
          = rest.foldl (fun acc c => executeGrep c acc) (exec1 first).Output
        ∧ (ExecutePipeline exec1 { Commands := first :: rest }).Error = none)
  ∧ (∀ pre c post, rest = pre ++ c :: post →
      (exec1 first).Error = none → (exec1 first).ExitFlag = false →
      (∀ d ∈ pre, d.Typ = CmdGrep) → c.Typ ≠ CmdGrep →
      ∀ post2 : List Command,
        ExecutePipeline exec1 { Commands := first :: (pre ++ c :: post2) }
          = { Output := "", ExitFlag := false,
              Error := some (ExecError.cannotPipeTo (getCommandName c.Typ)) }) := by
  refine ⟨?_, ?_, ?_⟩
  · intro herr
    simp [ExecutePipeline, herr]
  · intro herr hexit hall
    cases hrest : rest with
    | nil =>
      simp [ExecutePipeline, herr, hexit]
    | cons r0 rtail =>
      rw [← hrest]
      have hne : rest ≠ [] := by simp [hrest]
      have : ExecutePipeline exec1 { Commands := first :: rest }
          = pipeLoop rest (exec1 first).Output := by
        simp [ExecutePipeline, herr, hexit, hne]
      rw [this, pipeLoop_all_grep rest (exec1 first).Output hall]
      exact ⟨rfl, rfl⟩
  · intro pre c post hsplit herr hexit hpre hc post2
    have hne : pre ++ c :: post2 ≠ [] := by
      cases pre <;> simp
    have : ExecutePipeline exec1 { Commands := first :: (pre ++ c :: post2) }
        = pipeLoop (pre ++ c :: post2) (exec1 first).Output := by
      simp [ExecutePipeline, herr, hexit, hne]
    rw [this, pipeLoop_bad pre c post2 (exec1 first).Output hpre hc]

/-- C6: witness — a concrete producer result piped through grep succeeds, an
erroring first command short-circuits, and cat as a second stage yields the
composition error regardless of what follows it. -/
theorem C6_witness :
    ((exec1ErrFix lsCmd).Error ≠ none
      ∧ ExecutePipeline exec1ErrFix { Commands := [lsCmd, grepDevCmd] } = exec1ErrFix lsCmd)
  ∧ ((exec1Fix lsCmd).Error = none ∧ (exec1Fix lsCmd).ExitFlag = false
      ∧ ((ExecutePipeline exec1Fix { Commands := [lsCmd, grepDevCmd] }).Output
            = [grepDevCmd].foldl (fun acc c => executeGrep c acc) (exec1Fix lsCmd).Output
          ∧ (ExecutePipeline exec1Fix { Commands := [lsCmd, grepDevCmd] }).Error = none))
  ∧ ExecutePipeline exec1Fix { Commands := [lsCmd, catCmd, grepDevCmd] }
      = { Output := "", ExitFlag := false,
          Error := some (ExecError.cannotPipeTo (getCommandName catCmd.Typ)) } := by
  refine ⟨⟨by decide, ?_⟩, ⟨by decide, by decide, ?_⟩, ?_⟩
  · exact (C6_pipeline exec1ErrFix lsCmd [grepDevCmd]).1 (by decide)
  · exact (C6_pipeline exec1Fix lsCmd [grepDevCmd]).2.1 (by decide) (by decide)
      (by decide)
  · exact (C6_pipeline exec1Fix lsCmd [catCmd, grepDevCmd]).2.2 [] catCmd [grepDevCmd]
      rfl (by decide) (by decide) (by decide) (by decide) [grepDevCmd]

theorem containsSubAux_infixTest (l pat : List Char) :
    containsSubAux l pat = true ↔ pat <:+: l := by
  induction l with
  | nil => simp [containsSubAux, List.isEmpty_iff]
  | cons a rest ih => simp [containsSubAux, ih, List.infix_cons_iff]

theorem strContains_infixTest (s sub : String) :
    strContains s sub = true ↔ sub.data <:+: s.data := by
  unfold strContains
  exact containsSubAux_infixTest s.data sub.data

theorem data_eq_nil_iff (s : String) : s.data = [] ↔ s = "" := by
  cases s with
  | mk l =>
    cases l with
    | nil => exact ⟨fun _ => rfl, fun _ => rfl⟩
    | cons c rest =>
      constructor
      · intro h
        cases h
      · intro h
        have h2 : (String.mk (c :: rest)).data = ("" : String).data := congrArg String.data h
        simp at h2

theorem goToLower_eq_empty_iff (s : String) : goToLower s = "" ↔ s = "" := by
  constructor
  · intro h
    have h2 : (goToLower s).data = [] := by rw [h]
    have h3 : s.data.map Char.toLower = [] := h2
    have h4 : s.data = [] := List.map_eq_nil_iff.mp h3
    exact (data_eq_nil_iff s).mp h4
  · intro h
    rw [h]
    rfl

theorem strContains_left_ne_empty (s sub : String) (h : strContains s sub = true)
    (hsub : sub ≠ "") : s ≠ "" := by
  intro hs
  subst hs
  have hd : sub.data <:+: ([] : List Char) := (strContains_infixTest "" sub).mp h
  have h2 : sub.data = [] := List.eq_nil_of_infix_nil hd
  exact hsub ((data_eq_nil_iff sub).mp h2)

theorem joinLines_ne_empty (l : List String) (hne : l ≠ []) (h : ∀ x ∈ l, x ≠ "") :
    joinLines l ≠ "" := by
  match l with
  | [x] =>
    simp only [joinLines]
    exact h x (by simp)
  | x :: y :: rest =>
    simp only [joinLines]
    intro hcontra
    have hlen := congrArg String.length hcontra
    simp only [String.length_append] at hlen
    have hnl : ("\n" : String).length = 1 := rfl
    have hz : ("" : String).length = 0 := rfl
    omega

/-- C7: with a non-empty pattern as its first argument, the grep stage returns
exactly the input lines whose lowercase form contains the lowercase pattern as
a substring, joined by newlines, and returns the sentinel text on zero matches
— never the empty string. -/
theorem C7_grep (cmd : Command) (pat : String) (input : String)
    (hargs : cmd.Args.head? = some pat) (hpat : pat ≠ "") :
    executeGrep cmd input
      = (if (splitLines input).filter
              (fun line => strContains (goToLower line) (goToLower pat)) = []
         then "No matches found."
         else joinLines ((splitLines input).filter
              (fun line => strContains (goToLower line) (goToLower pat))))
  ∧ executeGrep cmd input ≠ "" := by
  obtain ⟨tail, hargs2⟩ : ∃ t, cmd.Args = pat :: t := by
    cases hA : cmd.Args with
    | nil => rw [hA] at hargs; cases hargs
    | cons a t =>
      rw [hA] at hargs
      simp only [List.head?_cons, Option.some.injEq] at hargs
      exact ⟨t, by rw [hargs]⟩
  have hexec : executeGrep cmd input
      = (if (splitLines input).filter
              (fun line => strContains (goToLower line) (goToLower pat)) = []
         then "No matches found."
         else joinLines ((splitLines input).filter
              (fun line => strContains (goToLower line) (goToLower pat)))) := by
    simp only [executeGrep, hargs2, Bool.or_true, if_true, goToLower_idem]
  refine ⟨hexec, ?_⟩
  rw [hexec]
  by_cases hm : (splitLines input).filter
      (fun line => strContains (goToLower line) (goToLower pat)) = []
  · rw [if_pos hm]
    decide
  · rw [if_neg hm]
    refine joinLines_ne_empty _ hm ?_
    intro x hx
    have hpred : strContains (goToLower x) (goToLower pat) = true :=
      (List.mem_filter.mp hx).2
    have hlp : goToLower pat ≠ "" := by
      intro hcontra
      exact hpat ((goToLower_eq_empty_iff pat).mp hcontra)
    have : goToLower x ≠ "" := strContains_left_ne_empty _ _ hpred hlp
    intro hxe
    exact this (by rw [hxe]; rfl)

/-- C7: witness — grep dev over the four conversations returns exactly the two
dev entries, and a pattern with zero matches yields the sentinel text. -/
theorem C7_witness :
    (grepDevCmd.Args.head? = some "dev" ∧ ("dev" : String) ≠ "")
  ∧ (executeGrep grepDevCmd lsOutputFix
      = (if (splitLines lsOutputFix).filter
              (fun line => strContains (goToLower line) (goToLower "dev")) = []
         then "No matches found."
         else joinLines ((splitLines lsOutputFix).filter
              (fun line => strContains (goToLower line) (goToLower "dev"))))
      ∧ executeGrep grepDevCmd lsOutputFix ≠ "")
  ∧ executeGrep grepDevCmd lsOutputFix = "dev-backend\ndev-frontend"
  ∧ executeGrep { Typ := CmdGrep, Args := ["zzz"], Flags := [], RawArgs := "" } lsOutputFix
      = "No matches found." := by
  refine ⟨⟨by decide, by decide⟩, ?_, by decide, by decide⟩
  exact C7_grep grepDevCmd "dev" lsOutputFix (by decide) (by decide)

theorem tokenizeAux_in_quote (q : Char) (l : List Char) :
    ∀ (rest cur : List Char), q ∉ l →
      tokenizeAux (l ++ q :: rest) (some q) cur = tokenizeAux rest none (cur ++ l) := by
  induction l with
  | nil =>
    intro rest cur _
    simp [tokenizeAux]
  | cons c ctail ih =>
    intro rest cur hl
    have hc : ¬(c = q) := fun h => hl (h ▸ List.mem_cons_self c ctail)
    simp only [List.cons_append, tokenizeAux, if_neg hc, List.append_eq]
    rw [ih rest (cur ++ [c]) (fun h => hl (List.mem_cons_of_mem c h))]
    simp

theorem splitByPipeAux_in_quote (q : Char) (l : List Char) :
    ∀ (rest cur : List Char), q ∉ l →
      splitByPipeAux (l ++ q :: rest) (some q) cur
        = splitByPipeAux rest none (cur ++ l ++ [q]) := by
  induction l with
  | nil =>
    intro rest cur _
    simp [splitByPipeAux]
  | cons c ctail ih =>
    intro rest cur hl
    have hc : ¬(c = q) := fun h => hl (h ▸ List.mem_cons_self c ctail)
    simp only [List.cons_append, splitByPipeAux, if_neg hc, List.append_eq]
    rw [ih rest (cur ++ [c]) (fun h => hl (List.mem_cons_of_mem c h))]
    simp

/-- C9: counterexample — the claim fails on a quote character of the other
kind inside an open quote: tokenizing a double quote nested in single quotes
emits a token that still contains the double-quote character. -/
theorem C9_counterexample :
    tokenize (String.mk [squote, 'a', dquote, 'b', squote])
      = [String.mk ['a', dquote, 'b']]
  ∧ dquote ∈ (String.mk ['a', dquote, 'b']).data := by
  constructor
  · rfl
  · decide

/-- C9: amended — the delimiting quote characters themselves are consumed and
never emitted: wrapping any text free of the quote character in single or
double quotes tokenizes to exactly that text as one token (spaces inside the
quote are literal and do not split), and the pipeline splitter treats the
whole quoted region as one stage (a pipe inside matching quotes never
separates); only a quote character of the other kind inside an open quote is
emitted literally. -/
theorem C9_amended (q : Char) (s : String)
    (hq : q = dquote ∨ q = squote) (hs : q ∉ s.data) (hne : s ≠ "") :
    tokenize (String.mk (q :: s.data ++ [q])) = [s]
  ∧ splitByPipe (String.mk (q :: s.data ++ [q]))
      = [String.mk (q :: s.data ++ [q])] := by
  have hdne : s.data ≠ [] := by
    intro h
    exact hne ((data_eq_nil_iff s).mp h)
  constructor
  · show tokenizeAux (q :: s.data ++ [q]) none [] = [s]
    rw [show tokenizeAux (q :: s.data ++ [q]) none []
        = tokenizeAux (s.data ++ q :: []) (some q) [] by
      simp only [tokenizeAux, if_pos hq, List.append_eq, List.cons_append]]
    rw [tokenizeAux_in_quote q s.data [] [] hs]
    simp only [List.nil_append, tokenizeAux, if_neg hdne]
  · show splitByPipeAux (q :: s.data ++ [q]) none [] = _
    rw [show splitByPipeAux (q :: s.data ++ [q]) none []
        = splitByPipeAux (s.data ++ q :: []) (some q) [q] by
      simp only [splitByPipeAux, if_pos hq, List.nil_append, List.append_eq,
        List.cons_append]]
    rw [splitByPipeAux_in_quote q s.data [] [q] hs]
    simp only [splitByPipeAux]
    rw [if_neg (by simp)]
    simp

/-- C9: witness — a double-quoted text containing a space and a pipe becomes a
single token without the quotes, and a single pipeline stage. -/
theorem C9_witness :
    (dquote = dquote ∨ dquote = squote)
  ∧ dquote ∉ ("a |b c" : String).data
  ∧ ("a |b c" : String) ≠ ""
  ∧ tokenize (String.mk (dquote :: ("a |b c" : String).data ++ [dquote])) = ["a |b c"]
  ∧ splitByPipe (String.mk (dquote :: ("a |b c" : String).data ++ [dquote]))
      = [String.mk (dquote :: ("a |b c" : String).data ++ [dquote])] := by
  refine ⟨Or.inl rfl, by decide, by decide, ?_⟩
  exact C9_amended dquote "a |b c" (Or.inl rfl) (by decide) (by decide)

theorem trimSpace_fix_parts (rest : String) (htrim : trimSpace rest = rest) :
    rest.data.dropWhile isSpaceChar = rest.data
  ∧ rest.data.reverse.dropWhile isSpaceChar = rest.data.reverse := by
  have hdata : ((rest.data.dropWhile isSpaceChar).reverse.dropWhile isSpaceChar).reverse
      = rest.data := congrArg String.data htrim
  have hlen2 : ((rest.data.dropWhile isSpaceChar).reverse.dropWhile isSpaceChar).length
      = rest.data.length := by
    have := congrArg List.length hdata
    simpa using this
  have h1 : (rest.data.dropWhile isSpaceChar).length ≤ rest.data.length :=
    (List.dropWhile_sublist isSpaceChar).length_le
  have h2 : ((rest.data.dropWhile isSpaceChar).reverse.dropWhile isSpaceChar).length
      ≤ (rest.data.dropWhile isSpaceChar).reverse.length :=
    (List.dropWhile_sublist isSpaceChar).length_le
  have h3 : (rest.data.dropWhile isSpaceChar).reverse.length
      = (rest.data.dropWhile isSpaceChar).length := by simp
  have hd1 : rest.data.dropWhile isSpaceChar = rest.data :=
    (List.dropWhile_sublist isSpaceChar).eq_of_length (by omega)
  refine ⟨hd1, ?_⟩
  have hd2 : (rest.data.dropWhile isSpaceChar).reverse.dropWhile isSpaceChar
      = (rest.data.dropWhile isSpaceChar).reverse :=
    (List.dropWhile_sublist isSpaceChar).eq_of_length (by omega)
  rw [hd1] at hd2
  exact hd2

theorem dropWhile_append_of_fix (p : Char → Bool) (l : List Char)
    (h : l.dropWhile p = l) (hl : l ≠ []) (B : List Char) :
    (l ++ B).dropWhile p = l ++ B := by
  cases l with
  | nil => exact absurd rfl hl
  | cons c t =>
    have hpc : ¬(p c = true) := by
      intro hc
      rw [List.dropWhile_cons, if_pos hc] at h
      have hlen := congrArg List.length h
      have hle : (t.dropWhile p).length ≤ t.length := (List.dropWhile_sublist p).length_le
      simp at hlen
      omega
    rw [List.cons_append, List.dropWhile_cons, if_neg hpc]

theorem tokenizeAux_send (l : List Char) :
    tokenizeAux ('s' :: 'e' :: 'n' :: 'd' :: ' ' :: l) none []
      = "send" :: tokenizeAux l none [] := by
  have q1 : ¬(('s' : Char) = dquote ∨ ('s' : Char) = squote) := by decide
  have q2 : ¬(('e' : Char) = dquote ∨ ('e' : Char) = squote) := by decide
  have q3 : ¬(('n' : Char) = dquote ∨ ('n' : Char) = squote) := by decide
  have q4 : ¬(('d' : Char) = dquote ∨ ('d' : Char) = squote) := by decide
  have qs : ¬((' ' : Char) = dquote ∨ (' ' : Char) = squote) := by decide
  have g1 : ¬(('s' : Char) = ' ') := by decide
  have g2 : ¬(('e' : Char) = ' ') := by decide
  have g3 : ¬(('n' : Char) = ' ') := by decide
  have g4 : ¬(('d' : Char) = ' ') := by decide
  have hmk : String.mk ['s', 'e', 'n', 'd'] = "send" := rfl
  simp [tokenizeAux, q1, q2, q3, q4, qs, g1, g2, g3, g4, hmk]

/-- C8: counterexample — parsing send with a double-quoted body tokenizes to
the single argument hello world without quotes, but the captured raw text (and
therefore the text executeSend posts, which prefers RawArgs) retains the quote
characters. -/
theorem C8_counterexample :
    (ParseCommand sendInputFix).Args = ["hello world"]
  ∧ (ParseCommand sendInputFix).RawArgs = quotedHello
  ∧ sendMessageText (ParseCommand sendInputFix) = quotedHello
  ∧ dquote ∈ (sendMessageText (ParseCommand sendInputFix)).data := by
  refine ⟨by decide, by decide, by decide, by decide⟩

/-- C8: amended — for a send command, everything after the verb in the
trimmed input is captured verbatim as the raw text (interior whitespace and
punctuation, including quote characters, survive untouched); the example
input yields the single tokenized argument hello world without quotes, while
the raw text — which the send operation posts — keeps the quotes. -/
theorem C8_amended (rest : String)
    (htrim : trimSpace rest = rest) (htok : tokenize rest ≠ []) :
    (ParseCommand ("send " ++ rest)).Typ = CmdSend
  ∧ (ParseCommand ("send " ++ rest)).RawArgs = rest := by
  obtain ⟨hdl, hdr⟩ := trimSpace_fix_parts rest htrim
  have hrne : rest.data ≠ [] := by
    intro h
    apply htok
    unfold tokenize
    rw [h]
    rfl
  have hinputdata : ("send " ++ rest).data
      = 's' :: 'e' :: 'n' :: 'd' :: ' ' :: rest.data := rfl
  have hrevne : rest.data.reverse ≠ [] := by
    intro h
    exact hrne (by simpa using congrArg List.reverse h)
  have htrin : trimSpace ("send " ++ rest) = "send " ++ rest := by
    unfold trimSpace
    rw [hinputdata]
    rw [List.dropWhile_cons, if_neg (by decide)]
    rw [show ('s' :: 'e' :: 'n' :: 'd' :: ' ' :: rest.data).reverse
        = rest.data.reverse ++ [' ', 'd', 'n', 'e', 's'] by simp]
    rw [dropWhile_append_of_fix isSpaceChar rest.data.reverse hdr hrevne]
    have h5 : (rest.data.reverse ++ [' ', 'd', 'n', 'e', 's']).reverse
        = 's' :: 'e' :: 'n' :: 'd' :: ' ' :: rest.data := by simp
    rw [h5]
    cases rest
    rfl
  have hine : ("send " ++ rest) ≠ "" := by
    intro h
    have h2 : ("send " ++ rest).data = ("" : String).data := congrArg String.data h
    rw [hinputdata] at h2
    simp at h2
  have hidot : ("send " ++ rest) ≠ ".." := by
    intro h
    have h2 : ("send " ++ rest).data = (".." : String).data := congrArg String.data h
    rw [hinputdata] at h2
    simp at h2
  have htokin : tokenize ("send " ++ rest) = "send" :: tokenize rest := by
    unfold tokenize
    rw [hinputdata]
    exact tokenizeAux_send rest.data
  have hidx : stringIndex ("send " ++ rest) "send" = some 0 := by
    unfold stringIndex
    rw [hinputdata]
    unfold indexOfSubAux
    rw [if_pos (by simp [List.isPrefixOf])]
  have hraw : trimSpace (String.mk (' ' :: rest.data)) = rest := by
    unfold trimSpace
    have hmkd : (String.mk (' ' :: rest.data)).data = ' ' :: rest.data := rfl
    rw [hmkd]
    rw [List.dropWhile_cons, if_pos (by decide), hdl, hdr]
    simp
  obtain ⟨A, F, hAF⟩ : ∃ A F, parseFlagLoop (tokenize rest) [] [] = (A, F) :=
    ⟨_, _, rfl⟩
  have hpct : parseCommandType "send" = CmdSend := by decide
  simp only [ParseCommand, htrin, if_neg hine, if_neg hidot, htokin, hAF, hpct, hidx]
  rw [if_pos (And.intro trivial htok)]
  constructor
  · trivial
  · show trimSpace (String.mk (("send " ++ rest).data.drop (0 + "send".length))) = rest
    rw [hinputdata]
    exact hraw

/-- C8: witness — the amended theorem applied to the double-quoted hello
world body. -/
theorem C8_witness :
    trimSpace quotedHello = quotedHello
  ∧ tokenize quotedHello ≠ []
  ∧ ((ParseCommand ("send " ++ quotedHello)).Typ = CmdSend
      ∧ (ParseCommand ("send " ++ quotedHello)).RawArgs = quotedHello) := by
  refine ⟨by decide, by decide, ?_⟩
  exact C8_amended quotedHello (by decide) (by decide)

theorem revMentionScan_append (l1 : List Char) (l2 : List Char)
    (h : ∀ c ∈ l1, ¬(c = '@') ∧ ¬(c = ' ' ∨ c = '\n' ∨ c = '\t')) :
    revMentionScan (l1 ++ '@' :: l2) = some l1.length := by
  induction l1 with
  | nil => simp [revMentionScan]
  | cons c t ih =>
    obtain ⟨hc1, hc2⟩ := h c (List.mem_cons_self c t)
    simp only [List.cons_append, revMentionScan, if_neg hc1, if_neg hc2, List.append_eq]
    rw [ih (fun d hd => h d (List.mem_cons_of_mem c hd))]
    simp

theorem findMentionStart_of_split (base p : String)
    (hp : ∀ c ∈ p.data, ¬(c = '@') ∧ ¬(c = ' ' ∨ c = '\n' ∨ c = '\t')) :
    findMentionStart (base.data ++ '@' :: p.data) = some base.data.length := by
  unfold findMentionStart
  rw [show (base.data ++ '@' :: p.data).reverse
      = p.data.reverse ++ '@' :: base.data.reverse by simp]
  rw [revMentionScan_append p.data.reverse base.data.reverse
      (fun c hc => hp c (by simpa using hc))]
  simp only [Option.map_some, Option.some.injEq, List.length_append,
    List.length_cons, List.length_reverse]
  simp [List.length_append]

theorem buildCandidatesAux_spec (cache : List (String × String)) (query : String)
    (members : List String) :
    ∀ acc : List MentionCandidate, acc.length < 10 →
      buildCandidatesAux cache query members acc
        = acc ++ (members.filterMap (mentionPick cache query)).take (10 - acc.length) := by
  induction members with
  | nil =>
    intro acc _
    simp [buildCandidatesAux]
  | cons uid rest ih =>
    intro acc hacc
    cases hget : assocGet cache uid with
    | none =>
      have hpick : mentionPick cache query uid = none := by
        simp [mentionPick, hget]
      simp only [buildCandidatesAux, hget, List.filterMap_cons, hpick]
      exact ih acc hacc
    | some name =>
      by_cases hcond : (query = "" || goHasPrefix (goToLower name) query) = true
      · have hpick : mentionPick cache query uid = some ⟨uid, name⟩ := by
          have hpre : query.data.isPrefixOf (goToLower name).data = true := by
            rcases Bool.or_eq_true_iff.mp hcond with hq | hq
            · have hq2 : query = "" := by simpa using hq
              rw [hq2]
              rw [show ("" : String).data = [] from rfl]
              exact List.isPrefixOf_nil_left
            · exact hq
          simp [mentionPick, hget, hpre]
        simp only [buildCandidatesAux, hget, List.filterMap_cons, hpick, hcond, if_true]
        by_cases hfull : 10 ≤ (acc ++ [(⟨uid, name⟩ : MentionCandidate)]).length
        · rw [if_pos hfull]
          have h9 : acc.length = 9 := by
            simp only [List.length_append, List.length_cons, List.length_nil] at hfull
            omega
          rw [show 10 - acc.length = 1 by omega]
          simp [List.take]
        · rw [if_neg hfull]
          rw [ih _ (by simp only [List.length_append, List.length_cons,
            List.length_nil] at hfull ⊢; omega)]
          rw [show (acc ++ [(⟨uid, name⟩ : MentionCandidate)]).length = acc.length + 1 by simp]
          rw [show 10 - acc.length = (10 - (acc.length + 1)) + 1 by omega]
          simp [List.take_succ_cons]
      · have hcond2 : (query = "" || goHasPrefix (goToLower name) query) = false := by
          simpa using hcond
        have hpick : mentionPick cache query uid = none := by
          have hpre : query.data.isPrefixOf (goToLower name).data = false := by
            have hgb : goHasPrefix (goToLower name) query = false := by
              rcases Bool.or_eq_false_iff.mp hcond2 with ⟨_, hb⟩
              exact hb
            simpa [goHasPrefix] using hgb
          simp [mentionPick, hget, hpre]
        simp only [buildCandidatesAux, hget, List.filterMap_cons, hpick, hcond2,
          Bool.false_eq_true, if_false]
        rw [if_neg (by omega)]
        exact ih acc hacc

/-- C5: for a compose buffer ending in an at-prefix, the completion candidates
are exactly the members whose resolved lowercase names start with the
lowercase prefix, in membership-list order, capped at ten; and accepting the
selected (first) candidate replaces the at-prefix span with an at-sign, the
candidate full name, and a trailing space. -/
theorem C5_mention (base p : String) (members : List String)
    (cache : List (String × String)) (st0 : MentionState)
    (hp : ∀ c ∈ p.data, ¬(c = '@') ∧ ¬(c = ' ' ∨ c = '\n' ∨ c = '\t'))
    (hidx0 : st0.index = 0) :
    (updateMentionCompletion members cache
        (String.mk (base.data ++ '@' :: p.data)) st0).candidates
      = (members.filterMap (mentionPick cache (goToLower p))).take 10
  ∧ ((members.filterMap (mentionPick cache (goToLower p))).take 10 ≠ [] →
      completeMention
          (updateMentionCompletion members cache
            (String.mk (base.data ++ '@' :: p.data)) st0)
          (String.mk (base.data ++ '@' :: p.data))
        = base ++ "@"
            ++ (((members.filterMap (mentionPick cache (goToLower p))).take 10).getD 0
                  ⟨"", ""⟩).UserName ++ " ") := by
  have hdata : (String.mk (base.data ++ '@' :: p.data)).data
      = base.data ++ '@' :: p.data := rfl
  have hfind : findMentionStart (String.mk (base.data ++ '@' :: p.data)).data
      = some base.data.length := by
    rw [hdata]
    exact findMentionStart_of_split base p hp
  have hdrop : (base.data ++ '@' :: p.data).drop (base.data.length + 1) = p.data := by
    rw [show base.data ++ '@' :: p.data = (base.data ++ ['@']) ++ p.data by simp]
    rw [show base.data.length + 1 = (base.data ++ ['@']).length by simp]
    exact List.drop_left _ _
  have hquery : goToLower (String.mk ((base.data ++ '@' :: p.data).drop
      (base.data.length + 1))) = goToLower p := by
    rw [hdrop]
  have hst : updateMentionCompletion members cache
      (String.mk (base.data ++ '@' :: p.data)) st0
      = { active := decide
            ((members.filterMap (mentionPick cache (goToLower p))).take 10 ≠ []),
          candidates := (members.filterMap (mentionPick cache (goToLower p))).take 10,
          index := 0,
          query := goToLower p } := by
    simp only [updateMentionCompletion, hfind, hdata, hquery]
    rw [buildCandidatesAux_spec cache (goToLower p) members [] (by simp)]
    simp [hidx0]
  refine ⟨by rw [hst], ?_⟩
  intro hne
  rw [hst]
  unfold completeMention
  rw [if_neg ?hcnd]
  case hcnd =>
    simp [hne, List.isEmpty_iff]
  simp only [hfind, hdata]
  rw [show (base.data ++ '@' :: p.data).take base.data.length = base.data from
    List.take_left _ _]

/-- C5: witness — buffer hi at-al with members alice, albert, bob yields the
ordered candidates alice and albert, and accepting the first rewrites the
buffer to hi at-alice followed by a space. -/
theorem C5_witness :
    (∀ c ∈ ("al" : String).data, ¬(c = '@') ∧ ¬(c = ' ' ∨ c = '\n' ∨ c = '\t'))
  ∧ st0Fix.index = 0
  ∧ ((updateMentionCompletion membersFix cacheFix
        (String.mk (("hi " : String).data ++ '@' :: ("al" : String).data)) st0Fix).candidates
      = (membersFix.filterMap (mentionPick cacheFix (goToLower "al"))).take 10
    ∧ ((membersFix.filterMap (mentionPick cacheFix (goToLower "al"))).take 10 ≠ [] →
        completeMention
            (updateMentionCompletion membersFix cacheFix
              (String.mk (("hi " : String).data ++ '@' :: ("al" : String).data)) st0Fix)
            (String.mk (("hi " : String).data ++ '@' :: ("al" : String).data))
          = "hi " ++ "@"
              ++ (((membersFix.filterMap (mentionPick cacheFix (goToLower "al"))).take 10).getD 0
                    ⟨"", ""⟩).UserName ++ " "))
  ∧ (updateMentionCompletion membersFix cacheFix
        (String.mk (("hi " : String).data ++ '@' :: ("al" : String).data)) st0Fix).candidates
      = [⟨"U1", "alice"⟩, ⟨"U2", "albert"⟩]
  ∧ completeMention
        (updateMentionCompletion membersFix cacheFix
          (String.mk (("hi " : String).data ++ '@' :: ("al" : String).data)) st0Fix)
        (String.mk (("hi " : String).data ++ '@' :: ("al" : String).data))
      = "hi @alice " := by
  refine ⟨by decide, rfl, ?_, by decide, by decide⟩
  exact C5_mention "hi " "al" membersFix cacheFix st0Fix (by decide) rfl

end SlackShell
